import Mathlib

/-!
Verification development for the asynchronous output-and-analysis pipeline of
`src/img_common/autoencoder.py` (class `AutoEnc`).

The Python code is shallowly embedded: result-table cells become an inductive
`NpVal` (Python `None` sentinel, numbers, nested lists), the busy-poll wait of
`_save_imgs_from_patches` becomes a fuel-indexed loop `wait_bpp` that mirrors
the source statement by statement, the Pool B job becomes `job_body` (the `try`
block) wrapped by `save_imgs_from_patches` (the `except Exception` boundary),
the coordinator `_handle_output` becomes an event-trace generator, and the
report builder `_save_out_analysis` is modelled twice at two abstraction
levels: `save_csv`/`codec_rows` carry the numeric data of the regular
(fully-populated) case, while `save_out_analysis_np` tracks the numpy shape
discipline (array construction from nested lists, `reshape`, `swapaxes`,
`concatenate`) which decides what happens when cells are still unwritten.

Collaborators that are not part of the sources (`img_common.processing`,
`img_common.enums`): their interface is modelled from the spec, and each such
definition is marked `Modelled from the spec:` in its doc comment.
-/

/-- Python values that can sit in a cell of the manager-backed result tables of
`_instantiate_shared_variables` (lines 228-235): the initial `None` sentinel
from `manager.list([None] * var_len)`, numbers, and (nested) Python lists. -/
inductive NpVal where
  | pyNone : NpVal
  | num (q : ℚ) : NpVal
  | arr (xs : List NpVal) : NpVal

/-- Python truthiness of a cell value: `None` is falsy, a number is truthy iff
nonzero, a list is truthy iff nonempty. -/
def pyTruthy : NpVal → Bool
  | .pyNone => false
  | .num q => decide (q ≠ 0)
  | .arr xs => !xs.isEmpty

/-- The emptiness test `not bpp_proxy[pos]` of `_save_imgs_from_patches`
(autoencoder.py line 276): the cell counts as empty iff its value is falsy. -/
def bpp_empty_test (v : NpVal) : Bool := !(pyTruthy v)

/-- Modelled from the spec: `ImgProc.calc_bpp_using_gzip` (module
`img_common.processing`, not among the sources) is the Pool A job; per the
spec it writes into `SizeProxyTable[LearnedCodec, ImageIndex]` a numeric array
whose length is the number of quality levels.  The written value is a Python
list of numbers. -/
def calc_bpp_write (vals : List ℚ) : NpVal := .arr (vals.map .num)

/-- An original-image pathname: directory components plus the final name. -/
structure ImgPath where
  dir : List String
  name : String
deriving DecidableEq, Repr

/-- Index of the last occurrence of a dot in a character list
(Python `str.rfind` specialised to the dot, as used by `pathlib`). -/
def rfind_dot : List Char → Option Nat
  | [] => Option.none
  | c :: rest =>
    match rfind_dot rest with
    | Option.some i => Option.some (i + 1)
    | Option.none => if c = '.' then Option.some 0 else Option.none

/-- `pathlib.PurePath.stem`: the final component without its last suffix; a
suffix exists only when the last dot sits strictly inside the name (neither at
position 0 nor at the very end). -/
def py_stem (name : String) : String :=
  let cs := name.toList
  match rfind_dot cs with
  | Option.some i => if 0 < i ∧ i < cs.length - 1 then (cs.take i).asString else name
  | Option.none => name

/-- `AutoEnc.get_out_pathname` (lines 336-344): the output pathname is
`save_folder / (img_path.stem + ext)`. -/
def get_out_pathname (img_path : ImgPath) (save_folder : List String)
    (ext : String) : List String :=
  save_folder ++ [py_stem img_path.name ++ ext]

/-- Outcome of the busy-poll loop of `_save_imgs_from_patches` under a fuel
bound: the loop exited because the cell was observed truthy at poll `t`, the
`cont > 100` branch returned at poll `t`, or the fuel ran out (the loop is
still running after that many polls). -/
inductive WaitOutcome where
  | proceed (t : Nat)
  | timedOut (t : Nat)
  | exhausted
deriving DecidableEq, Repr

/-- The wait of `_save_imgs_from_patches` (lines 275-281), transcribed
statement by statement; `cell t` is the content of `bpp_proxy[pos]` at the
`t`-th poll:

`cont = 0`
`while not bpp_proxy[pos]:`
`    time.sleep(1)`
`    if cont > 100:`
`        AutoEnc._timeout_msg(...)`
`        return`

The source never increments `cont` (contrast `_save_metric_plot`, line 296,
which has `cont += 1`), and this transcription faithfully keeps `cont`
unchanged on the recursive call. -/
def wait_bpp (cell : Nat → NpVal) : Nat → Nat → Nat → WaitOutcome
  | 0, _, _ => .exhausted
  | fuel + 1, cont, t =>
    if bpp_empty_test (cell t) then
      if cont > 100 then .timedOut t
      else wait_bpp cell fuel cont (t + 1)
    else .proceed t

/-- Entry point of the wait: `cont` starts at `0`, polling starts at time `0`. -/
def wait_bpp_run (cell : Nat → NpVal) (fuel : Nat) : WaitOutcome :=
  wait_bpp cell fuel 0 0

/-- Environment of one Pool B job (`_save_imgs_from_patches`) for a fixed
image index.  Modelled from the spec where the collaborator is missing from
the sources: `ImgProc.load_image`, `ImgProc.calc_metric` and
`ImgProc.save_img` (module `img_common.processing`) are treated as external
calls that either return a value or raise, and `Metrics` (module
`img_common.enums`) is a fixed enumeration of `M` metrics indexed by `Fin M`.
`metric_val m = none` means `calc_metric` raises for metric `m`; `cell t` is
the content of the size-proxy cell at the `t`-th poll of the wait loop. -/
structure JobEnv (M : Nat) where
  load_ok : Bool
  metric_val : Fin M → Option NpVal
  cell : Nat → NpVal
  save_ok : Bool

/-- Address of one cell of the shared result tables for the learned codec:
the size-proxy cell of image `i`, or the metric-`m` cell of image `i`. -/
inductive CellAddr (M : Nat) where
  | bpp_cell (i : Nat)
  | metric_cell (m : Fin M) (i : Nat)
deriving DecidableEq, Repr

/-- The image index an address belongs to. -/
def addr_idx {M : Nat} : CellAddr M → Nat
  | .bpp_cell i => i
  | .metric_cell _ i => i

/-- The metric loop of `_save_imgs_from_patches` (lines 272-274):
`for metric in Metrics: metrics_proxy[metric[0]][pos] = ImgProc.calc_metric(...)`.
It threads the metric table (a function `Fin M → Nat → NpVal`) and the list of
cell addresses written so far; it stops at the first metric whose computation
raises, returning `false` in that case. -/
def metric_loop {M : Nat} (env : JobEnv M) (pos : Nat) :
    List (Fin M) → (Fin M → Nat → NpVal) → List (CellAddr M) →
    ((Fin M → Nat → NpVal) × List (CellAddr M) × Bool)
  | [], tbl, ws => (tbl, ws, true)
  | m :: rest, tbl, ws =>
    match env.metric_val m with
    | Option.none => (tbl, ws, false)
    | Option.some v =>
        metric_loop env pos rest
          (fun m2 p => if m2 = m ∧ p = pos then v else tbl m2 p)
          (ws ++ [CellAddr.metric_cell m pos])

/-- Exceptions that can be raised inside the `try` block of
`_save_imgs_from_patches`: `load_image` failing, `calc_metric` failing,
`save_img` failing. -/
inductive JobExc where
  | load_exc
  | metric_exc
  | save_exc
deriving DecidableEq, Repr

/-- How one execution of the `try` block of `_save_imgs_from_patches` ends:
normal return from the timeout branch, normal return after saving the image
to the given pathname, an exception raised by one of the steps, or the wait
loop still polling when the fuel ran out. -/
inductive BodyOut where
  | ret_timeout
  | ret_saved (path : List String)
  | raised (e : JobExc)
  | looping
deriving DecidableEq, Repr

/-- The `try` block of `_save_imgs_from_patches` (lines 269-283): load the
original image, write every metric cell for `pos`, busy-poll the size-proxy
cell, and only then save the reconstructed image under
`get_out_pathname(orig_path, save_folder, ".png")`.  Returns the metric table,
the list of table writes performed, and how the block ended. -/
def job_body {M : Nat} (env : JobEnv M) (orig_path : ImgPath)
    (save_folder : List String) (pos : Nat) (tbl0 : Fin M → Nat → NpVal)
    (fuel : Nat) :
    ((Fin M → Nat → NpVal) × List (CellAddr M) × BodyOut) :=
  if env.load_ok = false then (tbl0, [], .raised .load_exc)
  else
    match metric_loop env pos (List.finRange M) tbl0 [] with
    | (tbl, ws, false) => (tbl, ws, .raised .metric_exc)
    | (tbl, ws, true) =>
      match wait_bpp_run env.cell fuel with
      | .timedOut _ => (tbl, ws, .ret_timeout)
      | .exhausted => (tbl, ws, .looping)
      | .proceed _ =>
        if env.save_ok then
          (tbl, ws, .ret_saved (get_out_pathname orig_path save_folder ".png"))
        else (tbl, ws, .raised .save_exc)

/-- Result of one Pool B job after the `except Exception: print_exc()`
boundary: the final metric table, the writes performed, the image artifact (if
any), and which of the three terminal messages happened (timeout logged,
traceback logged) or whether the job is still inside the wait loop. -/
structure JobResult (M : Nat) where
  table : Fin M → Nat → NpVal
  writes : List (CellAddr M)
  saved : Option (List String)
  timeout_logged : Bool
  traceback_logged : Bool
  diverged : Bool

/-- `AutoEnc._save_imgs_from_patches` (lines 264-285) as a whole: the `try`
block `job_body` wrapped by the `except Exception` clause, which turns every
raised exception into a logged traceback and a normal return; the timeout
branch logs via `_timeout_msg` and returns without saving. -/
def save_imgs_from_patches {M : Nat} (env : JobEnv M) (orig_path : ImgPath)
    (save_folder : List String) (pos : Nat) (tbl0 : Fin M → Nat → NpVal)
    (fuel : Nat) : JobResult M :=
  match job_body env orig_path save_folder pos tbl0 fuel with
  | (tbl, ws, BodyOut.ret_saved p) => ⟨tbl, ws, Option.some p, false, false, false⟩
  | (tbl, ws, BodyOut.ret_timeout) => ⟨tbl, ws, Option.none, true, false, false⟩
  | (tbl, ws, BodyOut.raised _) => ⟨tbl, ws, Option.none, false, true, false⟩
  | (tbl, ws, BodyOut.looping) => ⟨tbl, ws, Option.none, false, false, true⟩

/-- One observable action of the Output Coordinator `_handle_output`
(lines 239-262): a forced garbage collection, a blocking dequeue of the
hand-off item for image `i`, the asynchronous submission of the Pool A
size-proxy job or the Pool B reconstruction/metrics job for image `i` and its
path, closing or joining one of the two pools, or the call to
`_save_out_analysis`. -/
inductive Event where
  | gc_collect
  | queue_get (i : Nat)
  | submit_a (i : Nat) (path : ImgPath)
  | submit_b (i : Nat) (path : ImgPath)
  | pool_close (p : Nat)
  | pool_join (p : Nat)
  | save_analysis
deriving DecidableEq, Repr

/-- The body of one iteration of the coordinator loop (lines 248-258): a
memory-reclamation pass when `img_num % 5 == 0`, then `out_queue.get()`, then
`_codecs_out_routines` which submits the Pool A job (line 204) followed by the
Pool B job (line 206). -/
def iter_events (i : Nat) (img : ImgPath) : List Event :=
  (if i % 5 = 0 then [Event.gc_collect] else []) ++
    [Event.queue_get i, Event.submit_a i img, Event.submit_b i img]

/-- `for img_num, img in enumerate(img_pathnames)` with the running index. -/
def output_loop : Nat → List ImgPath → List Event
  | _, [] => []
  | i, img :: rest => iter_events i img ++ output_loop (i + 1) rest

/-- `AutoEnc._handle_output` (lines 239-262) as an event trace: the main loop
over the enumerated pathnames, then `close` on both pools, then `join` on both
pools, then `_save_out_analysis`. -/
def handle_output (paths : List ImgPath) : List Event :=
  output_loop 0 paths ++
    [Event.pool_close 0, Event.pool_close 1, Event.pool_join 0,
     Event.pool_join 1, Event.save_analysis]

/-- All writes to the learned-codec cells of the shared result tables over one
run: for each image index `i` of the run, the single size-proxy write of the
Pool A job (modelled from the spec: `calc_bpp_using_gzip` writes
`bpps[Codecs.NET][img_num]` exactly once; the function itself is not among the
sources) together with the metric-cell writes actually performed by the Pool B
job `save_imgs_from_patches` for `i`.  Cells of codecs other than the learned
one are never written by this code, so they contribute no events. -/
def run_writes {M : Nat} (envs : Nat → JobEnv M) (paths : List ImgPath)
    (save_folder : List String) (tbl0 : Fin M → Nat → NpVal) (fuel : Nat) :
    List (CellAddr M) :=
  (List.range paths.length).flatMap fun i =>
    CellAddr.bpp_cell i ::
      (save_imgs_from_patches (envs i) (paths.getD i ⟨[], ""⟩) save_folder i
        tbl0 fuel).writes

/-- Column headers of `save_csv` (lines 171-175):
`names = ['bpp'] + list(map(str, Metrics))` and
`cols = [x[0] + str(x[1]) for x in product(names, range(levels))]`. -/
def report_cols (names : List String) (levels : Nat) : List String :=
  (names.product (List.range levels)).map fun x => x.1 ++ toString x.2

/-- Modelled from the spec: the header names, `'bpp'` followed by the printed
name of each member of the `Metrics` enumeration (`img_common.enums` is not
among the sources; the spec fixes only that it is a fixed set of `M` metrics). -/
def metric_names {M : Nat} (metric_str : Fin M → String) : List String :=
  "bpp" :: (List.finRange M).map metric_str

/-- `df.mean(axis=0)` of a fully populated frame with `w` columns: the
column-wise mean of the rows. -/
def col_mean (w : Nat) (rows : List (List ℚ)) : List ℚ :=
  (List.range w).map fun j => (rows.map fun r => r.getD j 0).sum / (rows.length : ℚ)

/-- The emitted per-codec report of `save_csv` (lines 171-180): the data rows
(image identifier paired with its values), the trailing `mean` row appended by
`pd.concat`, the column headers, and the `float_format` handed to `to_csv`. -/
structure Report (ι : Type) where
  data_rows : List (ι × List ℚ)
  mean_row : List ℚ
  cols : List String
  float_format : String

/-- The inner `save_csv` of `_save_out_analysis` (lines 171-180) on regular
numeric data: build the frame (pandas raises a `ValueError` unless the data
block matches the index length and column count), sort the rows by image
identifier (`df.sort_index()`; the identifiers are the original pathnames,
ordered linearly), append the column-wise `mean` row, and emit with
`float_format='%.5f'`.  The identifier type is any linear order, standing for
Python paths under their string ordering. -/
def save_csv {ι : Type} [LinearOrder ι] (data : List (List ℚ)) (ids : List ι)
    (names : List String) (levels : Nat) : Except String (Report ι) :=
  let cols := report_cols names levels
  if data.length = ids.length ∧ ∀ r ∈ data, r.length = cols.length then
    let sorted :=
      @List.insertionSort (ι × List ℚ) (fun a b => a.1 ≤ b.1)
        (fun a b => inferInstanceAs (Decidable (a.1 ≤ b.1))) (ids.zip data)
    Except.ok ⟨sorted, col_mean cols.length (sorted.map Prod.snd), cols, "%.5f"⟩
  else Except.error "ValueError"

/-- The numeric data block that `_save_out_analysis` (lines 184-194) hands to
`save_csv` for one codec, when every cell is populated: for image `i` the
size-proxy values (`bpps`, dims `images × levels`) followed by each metric's
values (`metrics` after `swapaxes(1, 2)` and the final reshape, i.e. the
metric axis is flattened with the level axis, metric-major). -/
def codec_rows (bppsC : List (List ℚ)) (metsC : List (List (List ℚ))) :
    List (List ℚ) :=
  (List.range bppsC.length).map fun i =>
    bppsC.getD i [] ++ (metsC.map fun mm => mm.getD i []).flatten

/-- A numpy array abstracted to its shape and dtype: `numeric` is true when
the array holds plain numbers (a float dtype), false when shape discovery
stopped before exhausting the nesting, so the elements are Python objects
(`None` sentinels, leftover ragged lists).  The element data itself is not
tracked: every claim settled on this model is about shapes, dtypes and raised
errors. -/
structure NpArr where
  shape : List Nat
  numeric : Bool
deriving DecidableEq, Repr

/-- Number of elements (`arr.size`). -/
def NpArr.size (a : NpArr) : Nat := a.shape.prod

/-- One step of numpy shape discovery: succeeds with `k` iff the values at the
current nesting level are all sequences of the same length `k` (and there is
at least one of them). -/
def same_len_arr : List NpVal → Option Nat
  | [] => Option.none
  | NpVal.arr ys :: rest =>
    if rest.all fun v =>
        match v with
        | NpVal.arr zs => zs.length == ys.length
        | _ => false
    then Option.some ys.length else Option.none
  | _ => Option.none

/-- The values one nesting level down. -/
def children_of (xs : List NpVal) : List NpVal :=
  xs.flatMap fun v => match v with | NpVal.arr ys => ys | _ => []

/-- The dimensions numpy discovers below the outermost one: while all values
at the current level are sequences of one common length, that length is a
dimension and discovery continues on their elements; at the first level where
this fails, discovery stops (the remaining values become `object` elements).
`fuel` dominates the nesting depth of the input (16 is ample for these
tables). -/
def sub_shape : Nat → List NpVal → List Nat
  | 0, _ => []
  | fuel + 1, xs =>
    match same_len_arr xs with
    | Option.some k => k :: sub_shape fuel (children_of xs)
    | Option.none => []

/-- Whether `np.array` gets a numeric dtype: dtype discovery walks the same
levels as `sub_shape`, and the dtype is numeric exactly when the values at the
level where shape discovery stops are all plain numbers; otherwise the array
holds `object` elements (`None` sentinels or leftover ragged lists). -/
def np_dtype_numeric : Nat → List NpVal → Bool
  | 0, _ => false
  | fuel + 1, xs =>
    match same_len_arr xs with
    | Option.some _ => np_dtype_numeric fuel (children_of xs)
    | Option.none =>
      xs.all fun v => match v with | NpVal.num _ => true | _ => false

/-- `np.array(rows)` for a Python list `rows`: the outermost dimension is the
list length, the deeper ones come from shape discovery; the dtype is numeric
iff the nested input is a fully regular block of numbers. -/
def np_from_rows (rows : List NpVal) : NpArr :=
  ⟨rows.length :: sub_shape 16 rows, np_dtype_numeric 16 rows⟩

/-- `arr.reshape(spec)` where `spec` entries are sizes or `-1` (`none`): the
known sizes must divide the element count and at most one `-1` is inferred,
otherwise numpy raises. -/
def np_reshape (a : NpArr) (spec : List (Option Nat)) : Except String NpArr :=
  let known := (spec.filterMap id).prod
  match spec.countP Option.isNone with
  | 0 => if known = a.size then Except.ok ⟨spec.filterMap id, a.numeric⟩
         else Except.error "ValueError: cannot reshape"
  | 1 => if known ≠ 0 ∧ a.size % known = 0 then
           Except.ok ⟨spec.map fun s => s.getD (a.size / known), a.numeric⟩
         else Except.error "ValueError: cannot reshape"
  | _ => Except.error "ValueError: can only specify one unknown dimension"

/-- `arr.swapaxes(1, 2)`: exchanges the second and third dimensions; numpy
raises when the array has fewer than 3 axes. -/
def np_swap12 (a : NpArr) : Except String NpArr :=
  match a.shape with
  | c :: x :: y :: rest => Except.ok ⟨c :: y :: x :: rest, a.numeric⟩
  | _ => Except.error "AxisError: axis out of bounds"

/-- `np.concatenate((a, b), axis=2)`: both arrays must have the same number of
dimensions, at least 3 of them, and agree on every dimension except the third;
otherwise numpy raises.  The result dtype is numeric only when both inputs
are (anything concatenated with an `object` array stays `object`). -/
def np_concat2 (a b : NpArr) : Except String NpArr :=
  match a.shape, b.shape with
  | c :: n :: x :: rest, c2 :: n2 :: y :: rest2 =>
    if c = c2 ∧ n = n2 ∧ rest = rest2 then
      Except.ok ⟨c :: n :: (x + y) :: rest, a.numeric && b.numeric⟩
    else Except.error "ValueError: concatenate shape mismatch"
  | _, _ => Except.error "ValueError: concatenate dimensions mismatch"

/-- The array-assembly steps of `AutoEnc._save_out_analysis` (lines 184-194),
in source order: `bpps = np.array(list(map(list, bpps_proxy)))` (one list of
`NpVal` cells per codec); `levels = bpps.shape[-1]`;
`metrics = np.array(...).reshape((C, M, len(bpps[0]), -1))` (the flattened
per-(codec, metric) rows of `metrics_proxy.flat`); `swapaxes(1, 2)`; merge the
last two axes; `data = np.concatenate((bpps, metrics), axis=2)`.  Returns the
concatenated data array together with `levels`, or the first raised error. -/
def save_out_analysis_arrays (C M : Nat) (bpp_cells : List (List NpVal))
    (met_cells : List (List NpVal)) : Except String (NpArr × Nat) := do
  let bpps := np_from_rows (bpp_cells.map NpVal.arr)
  let levels := bpps.shape.getLastD 0
  let mets_raw := np_from_rows (met_cells.map NpVal.arr)
  if bpps.shape.length < 2 then
    Except.error "TypeError: len() of unsized object"
  else
    let n0 := bpps.shape.getD 1 0
    let mets_a ← np_reshape mets_raw
      [Option.some C, Option.some M, Option.some n0, Option.none]
    let mets_b ← np_swap12 mets_a
    let mets_c ← np_reshape mets_b
      ((mets_b.shape.dropLast.dropLast).map Option.some ++ [Option.none])
    let data ← np_concat2 bpps mets_c
    Except.ok (data, levels)

/-- Outcome of report emission: the reports were written (their
(rows, columns) shapes, one per codec), an exception was raised, or the
embedding does not commit — what pandas `mean`/`to_csv` do to a frame whose
columns are `object`-dtype and still hold `None` sentinels or list elements is
version-dependent, so on such frames the model declares neither success nor a
crash, and no theorem of this development concerns them. -/
inductive ReportOut where
  | ok (reports : List (Nat × Nat))
  | raises (msg : String)
  | unspecified
deriving DecidableEq, Repr

/-- `AutoEnc._save_out_analysis` (lines 166-196) at the shape/dtype level:
assemble the arrays (`save_out_analysis_arrays`; any numpy error propagates),
then run one `save_csv` per codec path (`zip` with the `C` csv paths).  Each
`save_csv` builds a `DataFrame` whose data slice must match the index length
and the header count (`pandas` raises on mismatch whatever the dtype); on a
numeric frame `mean`/`to_csv` succeed and the report is emitted, while on an
`object`-dtype frame (possible only when some table cells were never written)
the pandas behavior is version-dependent and the outcome is left
`unspecified`. -/
def save_out_analysis_np (C M : Nat) (bpp_cells : List (List NpVal))
    (met_cells : List (List NpVal)) (n_ids : Nat) (names : List String) :
    ReportOut :=
  match save_out_analysis_arrays C M bpp_cells met_cells with
  | Except.error e => ReportOut.raises e
  | Except.ok (data, levels) =>
    match data.shape with
    | [d0, d1, d2] =>
      if d1 = n_ids ∧ d2 = names.length * levels then
        if data.numeric then
          ReportOut.ok (List.replicate (min d0 C) (d1 + 1, d2))
        else ReportOut.unspecified
      else ReportOut.raises "ValueError: DataFrame shape mismatch"
    | _ => ReportOut.raises "ValueError: DataFrame expects 2-dimensional data"

/-- Modelled from the spec: the execution modes of `img_common.enums.ExecMode`
(not among the sources); the sources use `TRAIN` and `TEST`, the spec names
the `train`/`test`/`validation` subfolders. -/
inductive ExecMode where
  | TRAIN
  | TEST
  | VALIDATION
deriving DecidableEq, Repr

/-- Modelled from the spec: the output types of `img_common.enums.OutputType`
(not among the sources); the sources use `NONE`, `RECONSTRUCTION` and
`RESIDUES`. -/
inductive OutputType where
  | NONE
  | RECONSTRUCTION
  | RESIDUES
deriving DecidableEq, Repr

/-- A Python value that is either a `pathlib.Path` (component list) or a plain
`str` — the two things `pred_folder` can hold inside `_create_out_folder`. -/
inductive PyPathOrStr where
  | path (p : List String)
  | str (s : String)
deriving DecidableEq, Repr

/-- `AutoEnc._create_out_folder` (lines 147-164), transcribed statement by
statement.  `out_name` is the run's output directory.  On
`OutputType.NONE` it returns `None`; in `TRAIN` mode with `RESIDUES` output it
reassigns `pred_folder = str(OutputType.RESIDUES)` — a plain string; then
`pred_folder /= str(Folders.TEST)` in `TEST` mode and
`pred_folder /= str(Folders.VALIDATION)` otherwise.  Python's `/=` is not
defined between `str` and `str`, so that statement raises `TypeError` whenever
`pred_folder` is a string.  (`Folders` and the enum strings are modelled from
the spec: the subfolders are named `test`, `validation`, `residues`.) -/
def create_out_folder (exec_mode : ExecMode) (out_type : OutputType)
    (out_name : List String) : Except String (Option (List String)) :=
  if out_type = OutputType.NONE then Except.ok Option.none
  else
    let pred_folder : PyPathOrStr := PyPathOrStr.path out_name
    let pred_folder :=
      if exec_mode = ExecMode.TRAIN ∧ out_type = OutputType.RESIDUES then
        PyPathOrStr.str "residues"
      else pred_folder
    let sub := if exec_mode = ExecMode.TEST then "test" else "validation"
    match pred_folder with
    | PyPathOrStr.path p => Except.ok (Option.some (p ++ [sub]))
    | PyPathOrStr.str _ =>
      Except.error "TypeError: unsupported operand type for /: str and str"

theorem wait_bpp_no_timeout (cell : Nat → NpVal) :
    ∀ (fuel cont t : Nat), cont ≤ 100 →
      ∀ t2, wait_bpp cell fuel cont t ≠ WaitOutcome.timedOut t2 := by
  intro fuel
  induction fuel with
  | zero => intro cont t h t2; simp [wait_bpp]
  | succ n ih =>
    intro cont t h t2
    simp only [wait_bpp]
    by_cases hc : bpp_empty_test (cell t) = true
    · have hgt : ¬ cont > 100 := by omega
      simp [hc, hgt]
      exact ih cont (t + 1) h t2
    · simp [hc]

theorem wait_bpp_exhausted (cell : Nat → NpVal)
    (hc : ∀ t, bpp_empty_test (cell t) = true) :
    ∀ (fuel cont t : Nat), cont ≤ 100 →
      wait_bpp cell fuel cont t = WaitOutcome.exhausted := by
  intro fuel
  induction fuel with
  | zero => intro cont t h; simp [wait_bpp]
  | succ n ih =>
    intro cont t h
    have hgt : ¬ cont > 100 := by omega
    simp [wait_bpp, hc t, hgt]
    exact ih cont (t + 1) h

theorem wait_bpp_proceed_truthy (cell : Nat → NpVal) :
    ∀ (fuel cont t0 t : Nat),
      wait_bpp cell fuel cont t0 = WaitOutcome.proceed t →
      pyTruthy (cell t) = true := by
  intro fuel
  induction fuel with
  | zero => intro cont t0 t h; simp [wait_bpp] at h
  | succ n ih =>
    intro cont t0 t h
    simp only [wait_bpp] at h
    by_cases hc : bpp_empty_test (cell t0) = true
    · by_cases hgt : cont > 100
      · simp [hc, hgt] at h
      · simp [hc, hgt] at h
        exact ih cont (t0 + 1) t h
    · simp [hc] at h
      have : pyTruthy (cell t0) = true := by
        have := hc
        simp [bpp_empty_test] at this
        exact this
      rw [← h]
      exact this

theorem wait_bpp_proceeds (cell : Nat → NpVal) :
    ∀ (fuel cont t0 t : Nat), cont ≤ 100 → t0 ≤ t → t - t0 < fuel →
      pyTruthy (cell t) = true →
      ∃ t2, t0 ≤ t2 ∧ t2 ≤ t ∧
        wait_bpp cell fuel cont t0 = WaitOutcome.proceed t2 ∧
        pyTruthy (cell t2) = true := by
  intro fuel
  induction fuel with
  | zero => intro cont t0 t h1 h2 h3 h4; omega
  | succ n ih =>
    intro cont t0 t h1 h2 h3 h4
    by_cases hc : bpp_empty_test (cell t0) = true
    · have ht0 : pyTruthy (cell t0) = false := by
        simpa [bpp_empty_test] using hc
      have hne : t0 ≠ t := by
        intro e; rw [e, h4] at ht0; cases ht0
      obtain ⟨t2, ha, hb, hq, hd⟩ :=
        ih cont (t0 + 1) t h1 (by omega) (by omega) h4
      refine ⟨t2, by omega, hb, ?_, hd⟩
      have hgt : ¬ cont > 100 := by omega
      simp [wait_bpp, hc, hgt]
      exact hq
    · refine ⟨t0, le_refl _, h2, ?_, ?_⟩
      · simp [wait_bpp, hc]
      · have := hc
        simp [bpp_empty_test] at this
        exact this

theorem metric_loop_ok {M : Nat} (env : JobEnv M) (pos : Nat) :
    ∀ (l : List (Fin M)) tbl ws, (∀ m ∈ l, (env.metric_val m).isSome) →
      (metric_loop env pos l tbl ws).2.2 = true := by
  intro l
  induction l with
  | nil => intro tbl ws _; simp [metric_loop]
  | cons a rest ih =>
    intro tbl ws hall
    cases h : env.metric_val a with
    | none =>
      have := hall a (List.mem_cons_self a rest)
      simp [h] at this
    | some v =>
      simp only [metric_loop, h]
      exact ih _ _ fun m hm => hall m (List.mem_cons_of_mem a hm)

theorem metric_loop_writes {M : Nat} (env : JobEnv M) (pos : Nat) :
    ∀ (l : List (Fin M)) tbl ws,
      (metric_loop env pos l tbl ws).2.1 =
        ws ++ (l.takeWhile fun m => (env.metric_val m).isSome).map
          fun m => CellAddr.metric_cell m pos := by
  intro l
  induction l with
  | nil => intro tbl ws; simp [metric_loop]
  | cons a rest ih =>
    intro tbl ws
    cases h : env.metric_val a with
    | none => simp [metric_loop, h, List.takeWhile_cons]
    | some v => simp [metric_loop, h, ih, List.takeWhile_cons]

theorem metric_loop_table {M : Nat} (env : JobEnv M) (pos : Nat) :
    ∀ (l : List (Fin M)) tbl ws (m : Fin M) (p : Nat),
      (metric_loop env pos l tbl ws).1 m p = tbl m p ∨
        (p = pos ∧ env.metric_val m =
          Option.some ((metric_loop env pos l tbl ws).1 m p)) := by
  intro l
  induction l with
  | nil => intro tbl ws m p; left; simp [metric_loop]
  | cons a rest ih =>
    intro tbl ws m p
    cases h : env.metric_val a with
    | none => left; simp [metric_loop, h]
    | some v =>
      simp only [metric_loop, h]
      rcases ih (fun m2 p2 => if m2 = a ∧ p2 = pos then v else tbl m2 p2)
          (ws ++ [CellAddr.metric_cell a pos]) m p with hcase | hcase
      · by_cases hm : m = a ∧ p = pos
        · right
          refine ⟨hm.2, ?_⟩
          rw [hcase]
          simp [hm, h, hm.1]
        · left
          rw [hcase]
          simp [hm]
      · right; exact hcase

theorem metric_loop_preserve {M : Nat} (env : JobEnv M) (pos : Nat) :
    ∀ (l : List (Fin M)) tbl ws (m : Fin M) (p : Nat), m ∉ l →
      (metric_loop env pos l tbl ws).1 m p = tbl m p := by
  intro l
  induction l with
  | nil => intro tbl ws m p _; simp [metric_loop]
  | cons a rest ih =>
    intro tbl ws m p hm
    cases h : env.metric_val a with
    | none => simp [metric_loop, h]
    | some v =>
      simp only [metric_loop, h]
      rw [ih _ _ m p fun hc => hm (List.mem_cons_of_mem a hc)]
      have hne : ¬(m = a ∧ p = pos) := fun hc =>
        hm (hc.1 ▸ List.mem_cons_self a rest)
      simp [hne]

theorem metric_loop_success {M : Nat} (env : JobEnv M) (pos : Nat) :
    ∀ (l : List (Fin M)) tbl ws, l.Nodup →
      (∀ m ∈ l, (env.metric_val m).isSome) →
      ∀ m ∈ l, ∃ v, env.metric_val m = Option.some v ∧
        (metric_loop env pos l tbl ws).1 m pos = v := by
  intro l
  induction l with
  | nil => intro tbl ws _ _ m hm; cases hm
  | cons a rest ih =>
    intro tbl ws hnd hall m hm
    cases h : env.metric_val a with
    | none =>
      have := hall a (List.mem_cons_self a rest)
      simp [h] at this
    | some v =>
      simp only [metric_loop, h]
      rcases List.mem_cons.mp hm with rfl | hm2
      · refine ⟨v, h, ?_⟩
        rw [metric_loop_preserve env pos rest _ _ m pos
          (List.nodup_cons.mp hnd).1]
        simp
      · exact ih _ _ (List.nodup_cons.mp hnd).2
          (fun x hx => hall x (List.mem_cons_of_mem a hx)) m hm2

theorem job_body_table_eq {M : Nat} (env : JobEnv M) (orig_path : ImgPath)
    (save_folder : List String) (pos : Nat) (tbl0 : Fin M → Nat → NpVal)
    (fuel : Nat) (hload : env.load_ok = true) :
    (job_body env orig_path save_folder pos tbl0 fuel).1 =
      (metric_loop env pos (List.finRange M) tbl0 []).1 := by
  simp only [job_body, hload]
  rcases hml : metric_loop env pos (List.finRange M) tbl0 [] with ⟨tbl, ws, ok⟩
  cases ok
  · simp
  · cases hw : wait_bpp_run env.cell fuel <;> simp [hw]
    cases env.save_ok <;> simp

theorem save_imgs_fields {M : Nat} (env : JobEnv M) (orig_path : ImgPath)
    (save_folder : List String) (pos : Nat) (tbl0 : Fin M → Nat → NpVal)
    (fuel : Nat) :
    (save_imgs_from_patches env orig_path save_folder pos tbl0 fuel).table =
      (job_body env orig_path save_folder pos tbl0 fuel).1 ∧
    (save_imgs_from_patches env orig_path save_folder pos tbl0 fuel).writes =
      (job_body env orig_path save_folder pos tbl0 fuel).2.1 := by
  rcases hb : job_body env orig_path save_folder pos tbl0 fuel with ⟨tbl, ws, out⟩
  cases out <;> simp [save_imgs_from_patches, hb]

/-- C1: the claim states that the Pool B wait terminates for every input,
abandoning after a retry ceiling of 100 retries with a logged timeout.  The
code cannot do this: `cont` is initialised to `0` and never incremented, so
`cont > 100` is never true.  This theorem evaluates the code on the claim's
failing input (a size-proxy cell that is never written): for EVERY fuel bound
the job has neither logged a timeout nor produced an artifact nor returned —
it is still inside the busy-poll loop (`diverged`), i.e. the wait blocks
forever and `_timeout_msg` is unreachable. -/
theorem C1_wait_never_times_out {M : Nat} (env : JobEnv M) (orig_path : ImgPath)
    (save_folder : List String) (pos : Nat) (tbl0 : Fin M → Nat → NpVal)
    (hnever : ∀ t, pyTruthy (env.cell t) = false) :
    ∀ fuel,
      (save_imgs_from_patches env orig_path save_folder pos tbl0 fuel).timeout_logged
          = false ∧
      (save_imgs_from_patches env orig_path save_folder pos tbl0 fuel).saved
          = Option.none ∧
      (env.load_ok = true → (∀ m, (env.metric_val m).isSome) →
        (save_imgs_from_patches env orig_path save_folder pos tbl0 fuel).diverged
          = true) := by
  intro fuel
  have hempty : ∀ t, bpp_empty_test (env.cell t) = true := by
    intro t; simp [bpp_empty_test, hnever t]
  have hwait : wait_bpp_run env.cell fuel = WaitOutcome.exhausted :=
    wait_bpp_exhausted env.cell hempty fuel 0 0 (by omega)
  cases hload : env.load_ok with
  | false =>
    refine ⟨?_, ?_, ?_⟩
    · simp [save_imgs_from_patches, job_body, hload]
    · simp [save_imgs_from_patches, job_body, hload]
    · intro h; exact Bool.noConfusion h
  | true =>
    rcases hml : metric_loop env pos (List.finRange M) tbl0 [] with ⟨tbl, ws, ok⟩
    cases ok with
    | false =>
      refine ⟨?_, ?_, ?_⟩
      · simp [save_imgs_from_patches, job_body, hload, hml]
      · simp [save_imgs_from_patches, job_body, hload, hml]
      · intro _ hall
        have hok := metric_loop_ok env pos (List.finRange M) tbl0 []
          fun m _ => hall m
        rw [hml] at hok
        cases hok
    | true =>
      refine ⟨?_, ?_, ?_⟩
      · simp [save_imgs_from_patches, job_body, hload, hml, hwait]
      · simp [save_imgs_from_patches, job_body, hload, hml, hwait]
      · intro _ _
        simp [save_imgs_from_patches, job_body, hload, hml, hwait]

/-- C1 witness: a concrete job (one metric, loading and metric computation
succeed, the size-proxy cell stays `None` forever) run with fuel 5: no timeout
is logged and the job is still polling. -/
theorem C1_wait_never_times_out_witness :
    (save_imgs_from_patches
        (⟨true, fun _ => Option.some (NpVal.num 1), fun _ => NpVal.pyNone, true⟩ :
          JobEnv 1)
        ⟨["data"], "img.png"⟩ ["out"] 0 (fun _ _ => NpVal.pyNone) 5).timeout_logged
        = false ∧
    (save_imgs_from_patches
        (⟨true, fun _ => Option.some (NpVal.num 1), fun _ => NpVal.pyNone, true⟩ :
          JobEnv 1)
        ⟨["data"], "img.png"⟩ ["out"] 0 (fun _ _ => NpVal.pyNone) 5).diverged
        = true := by
  have h := C1_wait_never_times_out
    (⟨true, fun _ => Option.some (NpVal.num 1), fun _ => NpVal.pyNone, true⟩ :
      JobEnv 1)
    ⟨["data"], "img.png"⟩ ["out"] 0 (fun _ _ => NpVal.pyNone) (fun t => rfl) 5
  exact ⟨h.1, h.2.2 rfl fun m => rfl⟩

/-- C2: the unwritten state of a size-proxy cell is the `None` sentinel from
`manager.list([None] * var_len)`, which the emptiness test
`not bpp_proxy[pos]` classifies as empty; every value actually written by the
Pool A writer (a numeric array with one entry per quality level, of which
there is at least one) is classified as written — in particular an array
holding the number zero, since a nonempty Python list is truthy regardless of
its contents. -/
theorem C2_sentinel_distinguishable (levels : Nat) (vals : List ℚ)
    (hpos : 0 < levels) (hlen : vals.length = levels) :
    bpp_empty_test NpVal.pyNone = true ∧
    bpp_empty_test (calc_bpp_write vals) = false := by
  refine ⟨rfl, ?_⟩
  cases vals with
  | nil => rw [List.length_nil] at hlen; omega
  | cons q rest => simp [calc_bpp_write, bpp_empty_test, pyTruthy]

/-- C2 witness: one quality level, written value the array `[0]` — treated as
written even though its single entry is zero. -/
theorem C2_sentinel_distinguishable_witness :
    0 < 1 ∧ ([(0 : ℚ)].length = 1) ∧
    (bpp_empty_test NpVal.pyNone = true ∧
      bpp_empty_test (calc_bpp_write [(0 : ℚ)]) = false) :=
  ⟨by decide, by decide,
    C2_sentinel_distinguishable 1 [(0 : ℚ)] (by decide) (by decide)⟩

/-- C9: the claim states output-folder resolution is total and mode-determined,
with a residues subfolder when TRAIN mode is configured with RESIDUES output.
The code contradicts the residues part: `pred_folder = str(OutputType.RESIDUES)`
makes `pred_folder` a plain string, and the following `pred_folder /= str(...)`
raises `TypeError` because `/` is not defined between `str` and `str` — so
TRAIN+RESIDUES can never produce a folder.  The other modes behave as claimed:
NONE short-circuits to no folder, TEST appends the `test` subfolder, every
other mode appends the `validation` subfolder. -/
theorem C9_residues_branch_raises :
    create_out_folder ExecMode.TRAIN OutputType.RESIDUES ["run_out"] =
      Except.error "TypeError: unsupported operand type for /: str and str" ∧
    create_out_folder ExecMode.TRAIN OutputType.NONE ["run_out"] =
      Except.ok Option.none ∧
    create_out_folder ExecMode.TEST OutputType.RECONSTRUCTION ["run_out"] =
      Except.ok (Option.some ["run_out", "test"]) ∧
    create_out_folder ExecMode.TRAIN OutputType.RECONSTRUCTION ["run_out"] =
      Except.ok (Option.some ["run_out", "validation"]) ∧
    create_out_folder ExecMode.VALIDATION OutputType.RECONSTRUCTION ["run_out"] =
      Except.ok (Option.some ["run_out", "validation"]) := by
  refine ⟨rfl, rfl, rfl, rfl, rfl⟩

/-- C3: (first conjunct) the Pool B job persists the reconstructed image only
after the busy-poll wait succeeded, i.e. only if the wait observed the
size-proxy cell non-empty; (second conjunct) when loading and all metric
computations succeed, the cell is non-empty at some poll `t` within the fuel
bound, and the image write succeeds, then the job saves exactly one artifact,
under the deterministic pathname `save_folder / (stem of the original name +
".png")`, and the wait indeed exited at an observation of a non-empty cell no
later than `t`. -/
theorem C3_save_after_wait {M : Nat} (env : JobEnv M) (orig_path : ImgPath)
    (save_folder : List String) (pos : Nat) (tbl0 : Fin M → Nat → NpVal)
    (fuel t : Nat) (hload : env.load_ok = true)
    (hmet : ∀ m, (env.metric_val m).isSome)
    (hcell : pyTruthy (env.cell t) = true) (hfuel : t < fuel)
    (hsave : env.save_ok = true) :
    (∀ (env2 : JobEnv M) orig2 folder2 pos2 tbl2 fuel2,
      (save_imgs_from_patches env2 orig2 folder2 pos2 tbl2 fuel2).saved ≠
          Option.none →
        ∃ t3, wait_bpp_run env2.cell fuel2 = WaitOutcome.proceed t3 ∧
          pyTruthy (env2.cell t3) = true) ∧
    (save_imgs_from_patches env orig_path save_folder pos tbl0 fuel).saved =
      Option.some (save_folder ++ [py_stem orig_path.name ++ ".png"]) ∧
    ∃ t2, t2 ≤ t ∧ wait_bpp_run env.cell fuel = WaitOutcome.proceed t2 ∧
      pyTruthy (env.cell t2) = true := by
  refine ⟨?_, ?_⟩
  · intro env2 orig2 folder2 pos2 tbl2 fuel2 hs
    cases hload2 : env2.load_ok with
    | false => simp [save_imgs_from_patches, job_body, hload2] at hs
    | true =>
      rcases hml2 : metric_loop env2 pos2 (List.finRange M) tbl2 [] with
        ⟨tblx, wsx, okx⟩
      cases okx with
      | false => simp [save_imgs_from_patches, job_body, hload2, hml2] at hs
      | true =>
        cases hw : wait_bpp_run env2.cell fuel2 with
        | timedOut t4 =>
          simp [save_imgs_from_patches, job_body, hload2, hml2, hw] at hs
        | exhausted =>
          simp [save_imgs_from_patches, job_body, hload2, hml2, hw] at hs
        | proceed t4 =>
          exact ⟨t4, rfl, wait_bpp_proceed_truthy env2.cell fuel2 0 0 t4 hw⟩
  · obtain ⟨t2, h0, hle, hw, htr⟩ :=
      wait_bpp_proceeds env.cell fuel 0 0 t (by omega) (by omega) (by omega)
        hcell
    have hok := metric_loop_ok env pos (List.finRange M) tbl0 [] fun m _ => hmet m
    rcases hml : metric_loop env pos (List.finRange M) tbl0 [] with ⟨tbl, ws, ok⟩
    rw [hml] at hok
    subst hok
    have hw2 : wait_bpp_run env.cell fuel = WaitOutcome.proceed t2 := hw
    refine ⟨?_, t2, hle, hw2, htr⟩
    simp [save_imgs_from_patches, job_body, hload, hml, hw2, hsave,
      get_out_pathname]

/-- C3 witness: a concrete one-metric job whose size-proxy cell holds the
array `[1]` from the first poll on; with fuel 1 the artifact is saved at
`out/img.png` (stem of `img.jpg` plus `.png`). -/
theorem C3_save_after_wait_witness :
    (save_imgs_from_patches
        (⟨true, fun _ => Option.some (NpVal.num 1),
          fun _ => NpVal.arr [NpVal.num 1], true⟩ : JobEnv 1)
        ⟨["data"], "img.jpg"⟩ ["out"] 0 (fun _ _ => NpVal.pyNone) 1).saved =
      Option.some ["out", "img.png"] := by
  have h := C3_save_after_wait
    (⟨true, fun _ => Option.some (NpVal.num 1),
      fun _ => NpVal.arr [NpVal.num 1], true⟩ : JobEnv 1)
    ⟨["data"], "img.jpg"⟩ ["out"] 0 (fun _ _ => NpVal.pyNone) 1 0 rfl
    (fun m => rfl) (by decide) (by decide) rfl
  have hstem : py_stem "img.jpg" = "img" := by decide
  rw [h.2.1, hstem]
  decide

/-- C6: any exception raised inside the `try` block of the Pool B job — load
failure, metric-computation failure, image-write failure — is caught at the
job boundary: the job still yields a normal `JobResult` whose traceback flag
is set and whose artifact is absent, its tables are exactly the tables the
body computed (the handler writes nothing further), and every table cell
either still holds its previous value or holds a genuine value produced by
the corresponding metric computation for this job's index — never a partial
or corrupt value. -/
theorem C6_job_boundary_catches {M : Nat} (env : JobEnv M) (orig_path : ImgPath)
    (save_folder : List String) (pos : Nat) (tbl0 : Fin M → Nat → NpVal)
    (fuel : Nat) :
    (∀ e, (job_body env orig_path save_folder pos tbl0 fuel).2.2 =
        BodyOut.raised e →
      (save_imgs_from_patches env orig_path save_folder pos tbl0 fuel).traceback_logged
          = true ∧
      (save_imgs_from_patches env orig_path save_folder pos tbl0 fuel).saved
          = Option.none) ∧
    (save_imgs_from_patches env orig_path save_folder pos tbl0 fuel).table =
      (job_body env orig_path save_folder pos tbl0 fuel).1 ∧
    (∀ (m : Fin M) (p : Nat),
      (save_imgs_from_patches env orig_path save_folder pos tbl0 fuel).table m p
          = tbl0 m p ∨
        (p = pos ∧ env.metric_val m = Option.some
          ((save_imgs_from_patches env orig_path save_folder pos tbl0 fuel).table m p))) := by
  refine ⟨?_, (save_imgs_fields env orig_path save_folder pos tbl0 fuel).1, ?_⟩
  · intro e he
    rcases hb : job_body env orig_path save_folder pos tbl0 fuel with ⟨tbl, ws, out⟩
    rw [hb] at he
    simp at he
    subst he
    simp [save_imgs_from_patches, hb]
  · intro m p
    rw [(save_imgs_fields env orig_path save_folder pos tbl0 fuel).1]
    cases hload : env.load_ok with
    | false => left; simp [job_body, hload]
    | true =>
      rw [job_body_table_eq env orig_path save_folder pos tbl0 fuel hload]
      exact metric_loop_table env pos (List.finRange M) tbl0 [] m p

/-- C6 witness: a job whose single metric computation raises: the body ends
`raised metric_exc`, the wrapper logs a traceback and produces no artifact. -/
theorem C6_job_boundary_catches_witness :
    (save_imgs_from_patches
        (⟨true, fun _ => Option.none, fun _ => NpVal.arr [NpVal.num 1], true⟩ :
          JobEnv 1)
        ⟨["data"], "img.png"⟩ ["out"] 0 (fun _ _ => NpVal.pyNone) 3).traceback_logged
        = true ∧
    (save_imgs_from_patches
        (⟨true, fun _ => Option.none, fun _ => NpVal.arr [NpVal.num 1], true⟩ :
          JobEnv 1)
        ⟨["data"], "img.png"⟩ ["out"] 0 (fun _ _ => NpVal.pyNone) 3).saved
        = Option.none :=
  (C6_job_boundary_catches
    (⟨true, fun _ => Option.none, fun _ => NpVal.arr [NpVal.num 1], true⟩ :
      JobEnv 1)
    ⟨["data"], "img.png"⟩ ["out"] 0 (fun _ _ => NpVal.pyNone) 3).1
    JobExc.metric_exc rfl

/-- C10: whenever the Pool B job reaches the size-proxy wait (loading and all
metric computations succeeded), every metric cell of its image index already
holds the computed metric value, and it still does in the final table whatever
happens afterwards — for every fuel bound, hence also when the wait never
finishes, when the timeout branch would fire, and when the image write fails:
only the on-disk artifact is lost, never the metric values. -/
theorem C10_metrics_before_wait {M : Nat} (env : JobEnv M) (orig_path : ImgPath)
    (save_folder : List String) (pos : Nat) (tbl0 : Fin M → Nat → NpVal)
    (fuel : Nat) (hload : env.load_ok = true)
    (hmet : ∀ m, (env.metric_val m).isSome) :
    ∀ m : Fin M, ∃ v, env.metric_val m = Option.some v ∧
      (save_imgs_from_patches env orig_path save_folder pos tbl0 fuel).table m pos
        = v := by
  intro m
  rw [(save_imgs_fields env orig_path save_folder pos tbl0 fuel).1,
    job_body_table_eq env orig_path save_folder pos tbl0 fuel hload]
  exact metric_loop_success env pos (List.finRange M) tbl0 []
    (List.nodup_finRange M) (fun x _ => hmet x) m (List.mem_finRange m)

/-- C10 witness: one metric with value 7, the cell never written and fuel 2
(the wait is still polling when the fuel ends): the metric cell for the job's
index nevertheless holds 7. -/
theorem C10_metrics_before_wait_witness :
    ∃ v, Option.some (NpVal.num 7) = Option.some v ∧
      (save_imgs_from_patches
          (⟨true, fun _ => Option.some (NpVal.num 7), fun _ => NpVal.pyNone,
            true⟩ : JobEnv 1)
          ⟨["data"], "img.png"⟩ ["out"] 0 (fun _ _ => NpVal.pyNone) 2).table 0 0
        = v :=
  C10_metrics_before_wait
    (⟨true, fun _ => Option.some (NpVal.num 7), fun _ => NpVal.pyNone, true⟩ :
      JobEnv 1)
    ⟨["data"], "img.png"⟩ ["out"] 0 (fun _ _ => NpVal.pyNone) 2 rfl
    (fun m => rfl) 0

theorem save_imgs_writes_eq {M : Nat} (env : JobEnv M) (orig_path : ImgPath)
    (save_folder : List String) (pos : Nat) (tbl0 : Fin M → Nat → NpVal)
    (fuel : Nat) :
    (save_imgs_from_patches env orig_path save_folder pos tbl0 fuel).writes =
      if env.load_ok then
        ((List.finRange M).takeWhile fun m => (env.metric_val m).isSome).map
          fun m => CellAddr.metric_cell m pos
      else [] := by
  rw [(save_imgs_fields env orig_path save_folder pos tbl0 fuel).2]
  cases hload : env.load_ok with
  | false => simp [job_body, hload]
  | true =>
    simp only [job_body, hload]
    rcases hml : metric_loop env pos (List.finRange M) tbl0 [] with ⟨tbl, ws, ok⟩
    have hws := metric_loop_writes env pos (List.finRange M) tbl0 []
    rw [hml] at hws
    simp at hws
    cases ok
    · simpa using hws
    · cases hw : wait_bpp_run env.cell fuel <;> simp [hw]
      · cases env.save_ok <;> simp [hws]
      · exact hws
      · exact hws

theorem job_writes_nodup {M : Nat} (env : JobEnv M) (orig_path : ImgPath)
    (save_folder : List String) (pos : Nat) (tbl0 : Fin M → Nat → NpVal)
    (fuel : Nat) :
    (CellAddr.bpp_cell pos ::
      (save_imgs_from_patches env orig_path save_folder pos tbl0 fuel).writes).Nodup ∧
    ∀ b ∈ CellAddr.bpp_cell pos ::
        (save_imgs_from_patches env orig_path save_folder pos tbl0 fuel).writes,
      addr_idx b = pos := by
  rw [save_imgs_writes_eq env orig_path save_folder pos tbl0 fuel]
  cases hload : env.load_ok with
  | false => simp [addr_idx]
  | true =>
    simp only [if_pos rfl]
    constructor
    · rw [List.nodup_cons]
      constructor
      · intro hmem
        obtain ⟨m, _, hm⟩ := List.mem_map.mp hmem
        cases hm
      · refine List.Nodup.map ?_ ?_
        · intro a b hab
          cases hab
          rfl
        · exact ((List.finRange M).takeWhile_sublist _).nodup
            (List.nodup_finRange M)
    · intro b hb
      rcases List.mem_cons.mp hb with rfl | hb2
      · rfl
      · obtain ⟨m, _, hm⟩ := List.mem_map.mp hb2
        rw [← hm]
        rfl

theorem flatMap_range_count_le {M : Nat} (f : Nat → List (CellAddr M))
    (hn : ∀ i, (f i).Nodup) (hidx : ∀ i b, b ∈ f i → addr_idx b = i) :
    ∀ (N : Nat) (a : CellAddr M),
      ((List.range N).flatMap f).count a ≤ 1 ∧
      (N ≤ addr_idx a → ((List.range N).flatMap f).count a = 0) := by
  intro N
  induction N with
  | zero => intro a; simp
  | succ n ih =>
    intro a
    have hsplit : (List.range (n + 1)).flatMap f =
        (List.range n).flatMap f ++ f n := by
      rw [List.range_succ, List.flatMap_append]
      simp
    have hblock : (f n).count a ≤ 1 :=
      List.nodup_iff_count_le_one.mp (hn n) a
    by_cases hcase : addr_idx a = n
    · have h0 : ((List.range n).flatMap f).count a = 0 :=
        (ih a).2 (by omega)
      constructor
      · rw [hsplit, List.count_append, h0]
        omega
      · intro hle
        omega
    · have hb0 : (f n).count a = 0 := by
        rw [List.count_eq_zero]
        intro hmem
        exact hcase (hidx n a hmem)
      constructor
      · rw [hsplit, List.count_append, hb0]
        have := (ih a).1
        omega
      · intro hle
        rw [hsplit, List.count_append, hb0, (ih a).2 (by omega)]

/-- C7: over a whole run every learned-codec cell is written at most once:
job dispatch is keyed 1:1 with the image index (`run_writes` collects, for
each index of the run, the single size-proxy write of its Pool A job and the
metric-cell writes its Pool B job actually performs), each Pool B job writes
each metric cell of its own index at most once, and no job touches another
index's cells — so no cell address ever occurs twice in the run's write
trace.  Cells of codecs other than the learned one are never written by this
code at all. -/
theorem C7_no_duplicate_writes {M : Nat} (envs : Nat → JobEnv M)
    (paths : List ImgPath) (save_folder : List String)
    (tbl0 : Fin M → Nat → NpVal) (fuel : Nat) (a : CellAddr M) :
    (run_writes envs paths save_folder tbl0 fuel).count a ≤ 1 := by
  have := flatMap_range_count_le
    (fun i => CellAddr.bpp_cell i ::
      (save_imgs_from_patches (envs i) (paths.getD i ⟨[], ""⟩) save_folder i
        tbl0 fuel).writes)
    (fun i => (job_writes_nodup (envs i) (paths.getD i ⟨[], ""⟩) save_folder i
      tbl0 fuel).1)
    (fun i b hb => (job_writes_nodup (envs i) (paths.getD i ⟨[], ""⟩)
      save_folder i tbl0 fuel).2 b hb)
    paths.length a
  exact this.1

theorem output_loop_countP_queue (paths : List ImgPath) :
    ∀ s, ((output_loop s paths).countP
      fun e => match e with | Event.queue_get _ => true | _ => false) =
        paths.length := by
  induction paths with
  | nil => intro s; simp [output_loop]
  | cons img rest ih =>
    intro s
    rw [output_loop, List.countP_append, ih (s + 1)]
    by_cases h5 : s % 5 = 0
    · simp [iter_events, h5, List.countP_cons]; omega
    · simp [iter_events, h5, List.countP_cons]; omega

theorem output_loop_count_low (paths : List ImgPath) :
    ∀ s i p, i < s →
      ((output_loop s paths).count (Event.submit_a i p) = 0 ∧
       (output_loop s paths).count (Event.submit_b i p) = 0 ∧
       (output_loop s paths).count (Event.queue_get i) = 0) := by
  induction paths with
  | nil => intro s i p _; simp [output_loop]
  | cons img rest ih =>
    intro s i p hlt
    have hrest := ih (s + 1) i p (by omega)
    have hne : i ≠ s := by omega
    rw [output_loop]
    refine ⟨?_, ?_, ?_⟩ <;>
      · rw [List.count_append]
        by_cases h5 : s % 5 = 0 <;>
          simp [iter_events, h5, List.count_cons, hne, hrest.1, hrest.2.1,
            hrest.2.2]

theorem output_loop_count_hit (paths : List ImgPath) :
    ∀ s j, j < paths.length →
      ((output_loop s paths).count
          (Event.submit_a (s + j) (paths.getD j ⟨[], ""⟩)) = 1 ∧
       (output_loop s paths).count
          (Event.submit_b (s + j) (paths.getD j ⟨[], ""⟩)) = 1 ∧
       (output_loop s paths).count (Event.queue_get (s + j)) = 1) := by
  induction paths with
  | nil => intro s j hj; cases hj
  | cons img rest ih =>
    intro s j hj
    cases j with
    | zero =>
      have hlow := output_loop_count_low rest (s + 1) s img (by omega)
      rw [output_loop]
      simp only [List.getD_cons_zero, Nat.add_zero]
      refine ⟨?_, ?_, ?_⟩ <;>
        · rw [List.count_append]
          by_cases h5 : s % 5 = 0 <;>
            simp [iter_events, h5, List.count_cons, hlow.1, hlow.2.1, hlow.2.2]
    | succ k =>
      have hk : k < rest.length := by
        simp at hj; omega
      have hrest := ih (s + 1) k hk
      simp only [List.getD_eq_getElem?_getD] at hrest
      have harith : s + (k + 1) = (s + 1) + k := by omega
      rw [output_loop, List.getD_cons_succ, harith]
      have hne : (s + 1) + k ≠ s := by omega
      refine ⟨?_, ?_, ?_⟩ <;>
        · rw [List.count_append]
          by_cases h5 : s % 5 = 0 <;>
            simp [iter_events, h5, List.count_cons, hne, hrest.1, hrest.2.1,
              hrest.2.2]

theorem output_loop_count_gc (paths : List ImgPath) :
    ∀ s, (output_loop s paths).count Event.gc_collect =
      ((List.range paths.length).countP fun j => (s + j) % 5 == 0) := by
  induction paths with
  | nil => intro s; simp [output_loop]
  | cons img rest ih =>
    intro s
    rw [output_loop, List.count_append, ih (s + 1)]
    have hrange : (List.range (rest.length + 1)).countP
        (fun j => (s + j) % 5 == 0) =
        ((if s % 5 = 0 then 1 else 0) +
          (List.range rest.length).countP fun j => (s + 1 + j) % 5 == 0) := by
      rw [List.range_succ_eq_map, List.countP_cons, List.countP_map]
      have hfun : ((fun j => (s + j) % 5 == 0) ∘ Nat.succ) =
          fun j => (s + 1 + j) % 5 == 0 := by
        funext j
        simp [Function.comp]
        constructor
        · intro h; omega
        · intro h; omega
      rw [hfun]
      by_cases h5 : s % 5 = 0 <;> simp [h5] <;> omega
    rw [List.length_cons, hrange]
    by_cases h5 : s % 5 = 0 <;>
      simp [iter_events, h5, List.count_cons] <;> omega

theorem output_loop_no_tail_events (paths : List ImgPath) :
    ∀ s, ∀ e ∈ output_loop s paths,
      (∀ p, e ≠ Event.pool_close p) ∧ (∀ p, e ≠ Event.pool_join p) ∧
        e ≠ Event.save_analysis := by
  induction paths with
  | nil => intro s e he; simp [output_loop] at he
  | cons img rest ih =>
    intro s e he
    rw [output_loop, List.mem_append] at he
    rcases he with he | he
    · by_cases h5 : s % 5 = 0 <;>
        · simp [iter_events, h5] at he
          rcases he with rfl | rfl | rfl | rfl <;> simp
    · exact ih (s + 1) e he

/-- C5: the coordinator trace of `_handle_output` is the main loop over the
enumerated pathnames followed — in this order — by closing both pools, joining
both pools, and invoking the report builder (the hard barrier precedes the
report, and nothing but the externally known path count drives the loop: there
is no sentinel event).  The loop dequeues exactly `N` hand-off items, and for
every index `i < N` it dequeues exactly one item and submits exactly one
Pool A job and one Pool B job addressed by `i` and the `i`-th pathname; a
memory-reclamation pass happens exactly at the indices divisible by 5
(0, 5, 10, ...); the report-builder call is the final event and occurs exactly
once. -/
theorem C5_coordinator_trace (paths : List ImgPath) :
    handle_output paths = output_loop 0 paths ++
      [Event.pool_close 0, Event.pool_close 1, Event.pool_join 0,
       Event.pool_join 1, Event.save_analysis] ∧
    ((output_loop 0 paths).countP
      fun e => match e with | Event.queue_get _ => true | _ => false) =
        paths.length ∧
    (∀ i, i < paths.length →
      (handle_output paths).count (Event.queue_get i) = 1 ∧
      (handle_output paths).count (Event.submit_a i (paths.getD i ⟨[], ""⟩)) = 1 ∧
      (handle_output paths).count (Event.submit_b i (paths.getD i ⟨[], ""⟩)) = 1) ∧
    (output_loop 0 paths).count Event.gc_collect =
      ((List.range paths.length).countP fun i => i % 5 == 0) ∧
    (handle_output paths).getLast? = Option.some Event.save_analysis ∧
    (handle_output paths).count Event.save_analysis = 1 := by
  refine ⟨rfl, output_loop_countP_queue paths 0, ?_, ?_, ?_, ?_⟩
  · intro i hi
    have hhit := output_loop_count_hit paths 0 i hi
    simp only [Nat.zero_add] at hhit
    simp only [List.getD_eq_getElem?_getD] at hhit ⊢
    have htailq : ([Event.pool_close 0, Event.pool_close 1, Event.pool_join 0,
        Event.pool_join 1, Event.save_analysis].count (Event.queue_get i)) = 0 := by
      simp [List.count_cons]
    have htaila : ([Event.pool_close 0, Event.pool_close 1, Event.pool_join 0,
        Event.pool_join 1, Event.save_analysis].count
          (Event.submit_a i (paths[i]?.getD ⟨[], ""⟩))) = 0 := by
      simp [List.count_cons]
    have htailb : ([Event.pool_close 0, Event.pool_close 1, Event.pool_join 0,
        Event.pool_join 1, Event.save_analysis].count
          (Event.submit_b i (paths[i]?.getD ⟨[], ""⟩))) = 0 := by
      simp [List.count_cons]
    refine ⟨?_, ?_, ?_⟩ <;>
      · show (List.count _ (output_loop 0 paths ++ _)) = 1
        rw [List.count_append]
        simp [htailq, htaila, htailb, hhit.1, hhit.2.1, hhit.2.2]
  · have := output_loop_count_gc paths 0
    simpa using this
  · show (output_loop 0 paths ++ _).getLast? = _
    rw [List.getLast?_append]
    rfl
  · show (List.count _ (output_loop 0 paths ++ _)) = 1
    rw [List.count_append]
    have hloop : (output_loop 0 paths).count Event.save_analysis = 0 := by
      rw [List.count_eq_zero]
      intro hmem
      exact (output_loop_no_tail_events paths 0 _ hmem).2.2 rfl
    rw [hloop]
    rfl

/-- C5 witness: a run over six concrete pathnames; index 5 is dequeued exactly
once and gets exactly one Pool A submission. -/
theorem C5_coordinator_trace_witness :
    5 < ([⟨[], "a.png"⟩, ⟨[], "b.png"⟩, ⟨[], "c.png"⟩, ⟨[], "d.png"⟩,
          ⟨[], "e.png"⟩, ⟨[], "f.png"⟩] : List ImgPath).length ∧
    (handle_output [⟨[], "a.png"⟩, ⟨[], "b.png"⟩, ⟨[], "c.png"⟩, ⟨[], "d.png"⟩,
        ⟨[], "e.png"⟩, ⟨[], "f.png"⟩]).count (Event.queue_get 5) = 1 :=
  ⟨by decide,
    ((C5_coordinator_trace [⟨[], "a.png"⟩, ⟨[], "b.png"⟩, ⟨[], "c.png"⟩,
        ⟨[], "d.png"⟩, ⟨[], "e.png"⟩, ⟨[], "f.png"⟩]).2.2.1 5 (by decide)).1⟩

theorem codec_rows_length_eq (bppsC : List (List ℚ))
    (metsC : List (List (List ℚ))) (M L : Nat)
    (hbL : ∀ r ∈ bppsC, r.length = L)
    (hmM : metsC.length = M)
    (hmN : ∀ mm ∈ metsC, mm.length = bppsC.length)
    (hmL : ∀ mm ∈ metsC, ∀ r ∈ mm, r.length = L) :
    ∀ r ∈ codec_rows bppsC metsC, r.length = (1 + M) * L := by
  intro r hr
  simp only [codec_rows, List.mem_map] at hr
  obtain ⟨i, hi, rfl⟩ := hr
  rw [List.mem_range] at hi
  have h1 : (bppsC.getD i []).length = L := by
    rw [List.getD_eq_getElem _ _ hi]
    exact hbL _ (List.getElem_mem hi)
  rw [List.length_append, h1, List.length_flatten, List.map_map]
  have hmap : (metsC.map (List.length ∘ fun mm => mm.getD i [])) =
      metsC.map fun _ => L := by
    apply List.map_congr_left
    intro mm hmm
    have hiN : i < mm.length := by rw [hmN mm hmm]; exact hi
    simp only [Function.comp]
    rw [List.getD_eq_getElem _ _ hiN]
    exact hmL mm hmm _ (List.getElem_mem hiN)
  rw [hmap, List.map_const', List.sum_replicate, smul_eq_mul, hmM]
  ring

/-- C4: on a fully populated table the emitted per-codec report has one data
row per image, sorted by image identifier whatever the incoming `ImageIndex`
order was (the sorted rows are a permutation of the incoming rows), a trailing
`mean` row equal to the column-wise mean of the data rows, `(1+M)*L` data
columns — the size-proxy group first, then one group per metric, one column
per quality level, with headers `{measure}{level}` — and fixed `%.5f` float
rendering. -/
theorem C4_report_shape {ι : Type} [LinearOrder ι] (M L : Nat)
    (metric_str : Fin M → String) (ids : List ι) (bppsC : List (List ℚ))
    (metsC : List (List (List ℚ)))
    (hidlen : ids.length = bppsC.length)
    (hbL : ∀ r ∈ bppsC, r.length = L)
    (hmM : metsC.length = M)
    (hmN : ∀ mm ∈ metsC, mm.length = bppsC.length)
    (hmL : ∀ mm ∈ metsC, ∀ r ∈ mm, r.length = L) :
    ∃ rep : Report ι,
      save_csv (codec_rows bppsC metsC) ids (metric_names metric_str) L =
        Except.ok rep ∧
      rep.data_rows.length = bppsC.length ∧
      rep.cols = report_cols (metric_names metric_str) L ∧
      rep.cols.length = (1 + M) * L ∧
      (∀ row ∈ rep.data_rows, row.2.length = (1 + M) * L) ∧
      rep.data_rows.Pairwise (fun a b => a.1 ≤ b.1) ∧
      rep.data_rows.Perm (ids.zip (codec_rows bppsC metsC)) ∧
      rep.mean_row = col_mean ((1 + M) * L) (rep.data_rows.map Prod.snd) ∧
      rep.mean_row.length = (1 + M) * L ∧
      rep.float_format = "%.5f" := by
  have hcols : (report_cols (metric_names metric_str) L).length = (1 + M) * L := by
    simp only [report_cols, List.length_map]
    rw [show (metric_names metric_str).product (List.range L) =
        (metric_names metric_str) ×ˢ (List.range L) from rfl,
      List.length_product]
    simp only [metric_names, List.length_cons, List.length_map,
      List.length_finRange, List.length_range]
    ring
  have hrows := codec_rows_length_eq bppsC metsC M L hbL hmM hmN hmL
  have hlen : (codec_rows bppsC metsC).length = ids.length := by
    simp [codec_rows, hidlen]
  have hcond : (codec_rows bppsC metsC).length = ids.length ∧
      ∀ r ∈ codec_rows bppsC metsC,
        r.length = (report_cols (metric_names metric_str) L).length :=
    ⟨hlen, fun r hr => by rw [hrows r hr, hcols]⟩
  have hperm : (@List.insertionSort (ι × List ℚ) (fun a b => a.1 ≤ b.1)
      (fun a b => inferInstanceAs (Decidable (a.1 ≤ b.1)))
      (ids.zip (codec_rows bppsC metsC))).Perm
        (ids.zip (codec_rows bppsC metsC)) :=
    @List.perm_insertionSort (ι × List ℚ) (fun a b => a.1 ≤ b.1)
      (fun a b => inferInstanceAs (Decidable (a.1 ≤ b.1)))
      (ids.zip (codec_rows bppsC metsC))
  have hsorted := @List.sorted_insertionSort (ι × List ℚ)
    (fun a b => a.1 ≤ b.1)
    (fun a b => inferInstanceAs (Decidable (a.1 ≤ b.1)))
    ⟨fun a b => le_total a.1 b.1⟩ ⟨fun a b c h1 h2 => le_trans h1 h2⟩
    (ids.zip (codec_rows bppsC metsC))
  refine ⟨⟨@List.insertionSort (ι × List ℚ) (fun a b => a.1 ≤ b.1)
      (fun a b => inferInstanceAs (Decidable (a.1 ≤ b.1)))
      (ids.zip (codec_rows bppsC metsC)),
    col_mean (report_cols (metric_names metric_str) L).length
      ((@List.insertionSort (ι × List ℚ) (fun a b => a.1 ≤ b.1)
        (fun a b => inferInstanceAs (Decidable (a.1 ≤ b.1)))
        (ids.zip (codec_rows bppsC metsC))).map Prod.snd),
    report_cols (metric_names metric_str) L, "%.5f"⟩,
    ?_, ?_, rfl, hcols, ?_, hsorted, hperm, ?_, ?_, rfl⟩
  · simp only [save_csv]
    rw [if_pos hcond]
  · rw [hperm.length_eq, List.length_zip, hlen, hidlen, min_self]
  · intro row hrow
    have hrow2 := hperm.mem_iff.mp hrow
    have := List.of_mem_zip hrow2
    exact hrows _ this.2
  · rw [hcols]
  · rw [hcols]
    simp [col_mean]

/-- C4 witness: two images with identifiers 1 and 0 (deliberately unsorted),
one metric, one quality level. -/
theorem C4_report_shape_witness :
    ∃ rep : Report ℕ,
      save_csv (codec_rows [[(1 : ℚ)], [(2 : ℚ)]] [[[(3 : ℚ)], [(4 : ℚ)]]])
          [1, 0] (metric_names fun _ : Fin 1 => "mse") 1 =
        Except.ok rep ∧
      rep.data_rows.length = 2 ∧
      rep.cols = report_cols (metric_names fun _ : Fin 1 => "mse") 1 ∧
      rep.cols.length = (1 + 1) * 1 ∧
      (∀ row ∈ rep.data_rows, row.2.length = (1 + 1) * 1) ∧
      rep.data_rows.Pairwise (fun a b => a.1 ≤ b.1) ∧
      rep.data_rows.Perm ([1, 0].zip
        (codec_rows [[(1 : ℚ)], [(2 : ℚ)]] [[[(3 : ℚ)], [(4 : ℚ)]]])) ∧
      rep.mean_row = col_mean ((1 + 1) * 1) (rep.data_rows.map Prod.snd) ∧
      rep.mean_row.length = (1 + 1) * 1 ∧
      rep.float_format = "%.5f" :=
  C4_report_shape 1 1 (fun _ => "mse") [1, 0] [[(1 : ℚ)], [(2 : ℚ)]]
    [[[(3 : ℚ)], [(4 : ℚ)]]] (by decide) (by decide) (by decide) (by decide)
    (by decide)

theorem same_len_arr_of_uniform (xs : List NpVal) (k : Nat)
    (h : ∀ v ∈ xs, ∃ ys, v = NpVal.arr ys ∧ ys.length = k) (hne : xs ≠ []) :
    same_len_arr xs = Option.some k := by
  cases xs with
  | nil => cases hne rfl
  | cons v rest =>
    obtain ⟨ys, hv, hlen⟩ := h v (List.mem_cons_self v rest)
    subst hv
    have hall : rest.all (fun v2 =>
        match v2 with
        | NpVal.arr zs => zs.length == ys.length
        | _ => false) = true := by
      rw [List.all_eq_true]
      intro v2 hv2
      obtain ⟨zs, hz2, hz⟩ := h v2 (List.mem_cons_of_mem _ hv2)
      subst hz2
      simp [hz, hlen]
    simp only [same_len_arr]
    rw [if_pos hall, hlen]

theorem same_len_arr_of_no_arr (xs : List NpVal)
    (h : ∀ v ∈ xs, ∀ ys, v ≠ NpVal.arr ys) :
    same_len_arr xs = Option.none := by
  cases xs with
  | nil => rfl
  | cons v rest =>
    cases v with
    | pyNone => rfl
    | num q => rfl
    | arr ys => exact absurd rfl (h (NpVal.arr ys) (List.mem_cons_self _ _) ys)

theorem children_of_map_arr (ls : List (List NpVal)) :
    children_of (ls.map NpVal.arr) = ls.flatten := by
  induction ls with
  | nil => rfl
  | cons a rest ih =>
    simp only [List.map_cons, children_of, List.flatMap_cons, List.flatten_cons]
    simp only [children_of] at ih
    rw [ih]

theorem mem_children_of (xs : List NpVal) (c : NpVal)
    (hc : c ∈ children_of xs) : ∃ ys, NpVal.arr ys ∈ xs ∧ c ∈ ys := by
  simp only [children_of, List.mem_flatMap] at hc
  obtain ⟨a, ha, hca⟩ := hc
  cases a with
  | pyNone => simp at hca
  | num q => simp at hca
  | arr ys => exact ⟨ys, ha, hca⟩

theorem sub_shape_succ (fuel : Nat) (xs : List NpVal) :
    sub_shape (fuel + 1) xs =
      match same_len_arr xs with
      | Option.some k => k :: sub_shape fuel (children_of xs)
      | Option.none => [] := rfl

theorem sub_shape_some (fuel : Nat) (xs : List NpVal) (k : Nat)
    (h : same_len_arr xs = Option.some k) :
    sub_shape (fuel + 1) xs = k :: sub_shape fuel (children_of xs) := by
  rw [sub_shape_succ, h]

theorem sub_shape_none (fuel : Nat) (xs : List NpVal)
    (h : same_len_arr xs = Option.none) :
    sub_shape (fuel + 1) xs = [] := by
  rw [sub_shape_succ, h]

theorem np_dtype_succ_some (fuel : Nat) (xs : List NpVal) (k : Nat)
    (h : same_len_arr xs = Option.some k) :
    np_dtype_numeric (fuel + 1) xs = np_dtype_numeric fuel (children_of xs) := by
  rw [show np_dtype_numeric (fuel + 1) xs =
    (match same_len_arr xs with
      | Option.some _ => np_dtype_numeric fuel (children_of xs)
      | Option.none =>
        xs.all fun v => match v with | NpVal.num _ => true | _ => false)
    from rfl, h]

theorem np_dtype_succ_none (fuel : Nat) (xs : List NpVal)
    (h : same_len_arr xs = Option.none) :
    np_dtype_numeric (fuel + 1) xs =
      xs.all fun v => match v with | NpVal.num _ => true | _ => false := by
  rw [show np_dtype_numeric (fuel + 1) xs =
    (match same_len_arr xs with
      | Option.some _ => np_dtype_numeric fuel (children_of xs)
      | Option.none =>
        xs.all fun v => match v with | NpVal.num _ => true | _ => false)
    from rfl, h]

theorem np_from_rows_regular (cells : List (List NpVal)) (NN LL : Nat)
    (hne : cells ≠ [])
    (hrow : ∀ r ∈ cells, r.length = NN)
    (hN : 0 < NN)
    (hcell : ∀ r ∈ cells, ∀ c ∈ r, ∃ ls, c = NpVal.arr ls ∧ ls.length = LL ∧
      ∀ x ∈ ls, ∃ q, x = NpVal.num q) :
    np_from_rows (cells.map NpVal.arr) = ⟨cells.length :: [NN, LL], true⟩ := by
  have h1 : same_len_arr (cells.map NpVal.arr) = Option.some NN := by
    apply same_len_arr_of_uniform
    · intro v hv
      obtain ⟨r, hr, rfl⟩ := List.mem_map.mp hv
      exact ⟨r, rfl, hrow r hr⟩
    · simpa using hne
  have hch1 : children_of (cells.map NpVal.arr) = cells.flatten :=
    children_of_map_arr cells
  have hflne : cells.flatten ≠ [] := by
    cases cells with
    | nil => cases hne rfl
    | cons r rest =>
      have hr : r.length = NN := hrow r (List.mem_cons_self r rest)
      rw [List.flatten_cons]
      intro hcontra
      have := List.append_eq_nil.mp hcontra
      rw [this.1] at hr
      simp at hr
      omega
  have h2 : same_len_arr cells.flatten = Option.some LL := by
    apply same_len_arr_of_uniform
    · intro c hc
      obtain ⟨r, hr, hcr⟩ := List.mem_flatten.mp hc
      obtain ⟨ls, rfl, hl, _⟩ := hcell r hr c hcr
      exact ⟨ls, rfl, hl⟩
    · exact hflne
  have hleafnum : ∀ v ∈ children_of cells.flatten, ∃ q, v = NpVal.num q := by
    intro v hv
    obtain ⟨ys, hys, hvy⟩ := mem_children_of _ v hv
    obtain ⟨r, hr, hyr⟩ := List.mem_flatten.mp hys
    obtain ⟨ls, heq, _, hnum⟩ := hcell r hr _ hyr
    cases heq
    exact hnum v hvy
  have h3 : same_len_arr (children_of cells.flatten) = Option.none := by
    apply same_len_arr_of_no_arr
    intro v hv ys hcontra
    obtain ⟨q, hq⟩ := hleafnum v hv
    rw [hq] at hcontra
    cases hcontra
  have hsub : sub_shape 16 (cells.map NpVal.arr) = [NN, LL] := by
    rw [show (16 : Nat) = 15 + 1 from rfl, sub_shape_some 15 _ NN h1, hch1,
      show (15 : Nat) = 14 + 1 from rfl, sub_shape_some 14 _ LL h2,
      show (14 : Nat) = 13 + 1 from rfl, sub_shape_none 13 _ h3]
  have hnum : np_dtype_numeric 16 (cells.map NpVal.arr) = true := by
    rw [show (16 : Nat) = 15 + 1 from rfl, np_dtype_succ_some 15 _ NN h1, hch1,
      show (15 : Nat) = 14 + 1 from rfl, np_dtype_succ_some 14 _ LL h2,
      show (14 : Nat) = 13 + 1 from rfl, np_dtype_succ_none 13 _ h3,
      List.all_eq_true]
    intro v hv
    obtain ⟨q, hq⟩ := hleafnum v hv
    rw [hq]
  unfold np_from_rows
  rw [hsub, hnum, List.length_map]

theorem np_reshape_metrics (C M NN LL : Nat) (b : Bool)
    (hpos : 0 < C * M * NN) :
    np_reshape ⟨[C * M, NN, LL], b⟩
      [Option.some C, Option.some M, Option.some NN, Option.none] =
      Except.ok ⟨[C, M, NN, LL], b⟩ := by
  simp [np_reshape, NpArr.size]
  have h1 : ¬C = 0 ∧ ¬M = 0 ∧ ¬NN = 0 := by
    refine ⟨?_, ?_, ?_⟩ <;> rintro rfl <;> simp at hpos
  have h2 : C * M * (NN * LL) % (C * (M * NN)) = 0 := by
    rw [show C * M * (NN * LL) = (C * (M * NN)) * LL from by ring]
    exact Nat.mul_mod_right _ _
  have hposr : 0 < C * (M * NN) := by
    rw [← Nat.mul_assoc]
    exact hpos
  have h3 : C * M * (NN * LL) / (C * (M * NN)) = LL := by
    rw [show C * M * (NN * LL) = (C * (M * NN)) * LL from by ring]
    exact Nat.mul_div_cancel_left LL hposr
  rw [if_pos (And.intro h1 h2), h3]

theorem np_reshape_merge (C M NN LL : Nat) (b : Bool) (hpos : 0 < C * NN) :
    np_reshape ⟨[C, NN, M, LL], b⟩
      [Option.some C, Option.some NN, Option.none] =
      Except.ok ⟨[C, NN, M * LL], b⟩ := by
  simp [np_reshape, NpArr.size]
  have h1 : ¬C = 0 ∧ ¬NN = 0 := by
    refine ⟨?_, ?_⟩ <;> rintro rfl <;> simp at hpos
  have h2 : C * (NN * (M * LL)) % (C * NN) = 0 := by
    rw [show C * (NN * (M * LL)) = (C * NN) * (M * LL) from by ring]
    exact Nat.mul_mod_right _ _
  have h3 : C * (NN * (M * LL)) / (C * NN) = M * LL := by
    rw [show C * (NN * (M * LL)) = (C * NN) * (M * LL) from by ring]
    exact Nat.mul_div_cancel_left (M * LL) hpos
  rw [if_pos (And.intro h1 h2), h3]

/-- C8 counterexample, refuting the claim at its own example: a shared result
table in which the second codec was never populated (its cells still hold the
`None` sentinel) while the learned codec is fully written.  `np.array` then
discovers ragged shapes — the size-proxy array stops at 2 dimensions while
the reshaped metric array has 3 — and `np.concatenate(..., axis=2)` raises,
so `_save_out_analysis` dies and no report file is written for any codec. -/
theorem C8_missing_cells_crash :
    save_out_analysis_np 2 1 [[NpVal.arr [NpVal.num 1]], [NpVal.pyNone]]
      [[NpVal.arr [NpVal.num 2]], [NpVal.pyNone]] 1 ["bpp", "mse"] =
      ReportOut.raises "ValueError: concatenate dimensions mismatch" := by rfl

/-- C8 amended (positive side): on a fully populated table — every size-proxy
and metric cell holds a numeric array of the common length `LL`, the table
dimensions positive — `_save_out_analysis` raises nothing: the assembled data
array is regular and numeric, every `DataFrame` check passes, and one report
per codec is emitted with `NN + 1` rows and `(1 + M) * LL` columns. -/
theorem C8_full_table_reports (C M NN LL : Nat)
    (bpp_cells met_cells : List (List NpVal)) (names : List String)
    (hC : 0 < C) (hM : 0 < M) (hN : 0 < NN)
    (hb1 : bpp_cells.length = C)
    (hb2 : ∀ r ∈ bpp_cells, r.length = NN)
    (hb3 : ∀ r ∈ bpp_cells, ∀ c ∈ r, ∃ ls, c = NpVal.arr ls ∧ ls.length = LL ∧
      ∀ x ∈ ls, ∃ q, x = NpVal.num q)
    (hm1 : met_cells.length = C * M)
    (hm2 : ∀ r ∈ met_cells, r.length = NN)
    (hm3 : ∀ r ∈ met_cells, ∀ c ∈ r, ∃ ls, c = NpVal.arr ls ∧ ls.length = LL ∧
      ∀ x ∈ ls, ∃ q, x = NpVal.num q)
    (hnames : names.length = 1 + M) :
    save_out_analysis_np C M bpp_cells met_cells NN names =
      ReportOut.ok (List.replicate C (NN + 1, (1 + M) * LL)) := by
  have hbne : bpp_cells ≠ [] := by
    intro h; rw [h] at hb1; simp at hb1; omega
  have hmne : met_cells ≠ [] := by
    intro h; rw [h] at hm1
    have : 0 < C * M := Nat.mul_pos hC hM
    simp at hm1; omega
  have hb := np_from_rows_regular bpp_cells NN LL hbne hb2 hN hb3
  have hm := np_from_rows_regular met_cells NN LL hmne hm2 hN hm3
  rw [hb1] at hb
  rw [hm1] at hm
  have harr : save_out_analysis_arrays C M bpp_cells met_cells =
      Except.ok (⟨[C, NN, LL + M * LL], true⟩, LL) := by
    rw [save_out_analysis_arrays, hb, hm]
    have hlt : ¬ ((⟨[C, NN, LL], true⟩ : NpArr).shape.length < 2) := by simp
    simp only [hlt, if_false]
    have hgl : (⟨[C, NN, LL], true⟩ : NpArr).shape.getLastD 0 = LL := rfl
    have hgd : (⟨[C, NN, LL], true⟩ : NpArr).shape.getD 1 0 = NN := rfl
    rw [hgl, hgd, np_reshape_metrics C M NN LL true
      (Nat.mul_pos (Nat.mul_pos hC hM) hN)]
    show (do
      let mets_b ← np_swap12 ⟨[C, M, NN, LL], true⟩
      let mets_c ← np_reshape mets_b
        ((mets_b.shape.dropLast.dropLast).map Option.some ++ [Option.none])
      let data ← np_concat2 ⟨[C, NN, LL], true⟩ mets_c
      Except.ok (data, LL)) = _
    have hswap : np_swap12 ⟨[C, M, NN, LL], true⟩ =
        Except.ok ⟨[C, NN, M, LL], true⟩ := rfl
    rw [hswap]
    show (do
      let mets_c ← np_reshape ⟨[C, NN, M, LL], true⟩
        (([C, NN, M, LL].dropLast.dropLast).map Option.some ++ [Option.none])
      let data ← np_concat2 ⟨[C, NN, LL], true⟩ mets_c
      Except.ok (data, LL)) = _
    have hdl : ([C, NN, M, LL].dropLast.dropLast).map Option.some ++
        [Option.none] = [Option.some C, Option.some NN, Option.none] := rfl
    rw [hdl, np_reshape_merge C M NN LL true (Nat.mul_pos hC hN)]
    show (do
      let data ← np_concat2 ⟨[C, NN, LL], true⟩ ⟨[C, NN, M * LL], true⟩
      Except.ok (data, LL)) = _
    have hcat : np_concat2 ⟨[C, NN, LL], true⟩ ⟨[C, NN, M * LL], true⟩ =
        Except.ok ⟨[C, NN, LL + M * LL], true⟩ := by
      simp [np_concat2]
    rw [hcat]
    rfl
  rw [save_out_analysis_np, harr]
  show (if NN = NN ∧ LL + M * LL = names.length * LL then
      if (true : Bool) then
        ReportOut.ok (List.replicate (min C C) (NN + 1, LL + M * LL))
      else ReportOut.unspecified
    else ReportOut.raises "ValueError: DataFrame shape mismatch") = _
  have hcount : LL + M * LL = names.length * LL := by rw [hnames]; ring
  rw [if_pos (And.intro rfl hcount), if_pos rfl, min_self]
  have : LL + M * LL = (1 + M) * LL := by ring
  rw [this]

/-- C8 amended-claim witness: one codec, one metric, one image, one quality
level, every cell populated: one report of 2 rows and 2 columns. -/
theorem C8_full_table_reports_witness :
    save_out_analysis_np 1 1 [[NpVal.arr [NpVal.num 1]]]
      [[NpVal.arr [NpVal.num 2]]] 1 ["bpp", "mse"] =
      ReportOut.ok (List.replicate 1 (1 + 1, (1 + 1) * 1)) :=
  C8_full_table_reports 1 1 1 1 [[NpVal.arr [NpVal.num 1]]]
    [[NpVal.arr [NpVal.num 2]]] ["bpp", "mse"]
    (by decide) (by decide) (by decide) (by decide) (by decide)
    (by
      intro r hr c hc
      simp only [List.mem_singleton] at hr
      subst hr
      simp only [List.mem_singleton] at hc
      subst hc
      refine ⟨[NpVal.num 1], rfl, rfl, ?_⟩
      intro x hx
      simp only [List.mem_singleton] at hx
      subst hx
      exact ⟨1, rfl⟩)
    (by decide) (by decide)
    (by
      intro r hr c hc
      simp only [List.mem_singleton] at hr
      subst hr
      simp only [List.mem_singleton] at hc
      subst hc
      refine ⟨[NpVal.num 2], rfl, rfl, ?_⟩
      intro x hx
      simp only [List.mem_singleton] at hx
      subst hx
      exact ⟨2, rfl⟩)
    (by decide)
